import Mathlib

/- Shallow embedding of the j-display ingestion pipeline.

   Embedded source:
   - src/jdisplay/scrape_weather.py  (WeatherScraper: fetcher, parser, walks)
   - src/jdisplay/db_operations.py   (DBOperations: dedup store)

   Machine conventions: Python ints are Int; Python floats produced by
   float(text) on decimal literals are Rat; a Python dict is an
   insertion-ordered association list; a value that may be None is an Option. -/

/- ------------------------------------------------------------------
   Record model (scrape_weather.Day)
   ------------------------------------------------------------------ -/

/-- One day of temperatures (scrape_weather.Day): min, max, mean, each optional. -/
structure Day where
  mn : Option Rat
  mx : Option Rat
  av : Option Rat
  deriving DecidableEq, Repr

/-- One CSV row as csv.DictReader yields it: header name to cell text. -/
abbrev Row := List (String × String)

/-- Python row.get(k): the value at key k, if the key is present. -/
def rowGet (row : Row) (k : String) : Option String :=
  (row.find? (fun p => p.1 == k)).map Prod.snd

/-- The ObservationSet: the insertion-ordered dict date to Day. -/
abbrev ObservationSet := List (String × Day)

/-- Python dict assignment d[k] = v: replace in place when the key is
present, append otherwise. -/
def dictInsert (os : ObservationSet) (k : String) (v : Day) : ObservationSet :=
  if os.any (fun p => p.1 == k) then
    os.map (fun p => if p.1 == k then (k, v) else p)
  else os ++ [(k, v)]

/-- Python dict.update(other): assign every pair of other, in order. -/
def dictUpdate (os other : ObservationSet) : ObservationSet :=
  other.foldl (fun a p => dictInsert a p.1 p.2) os

/- ------------------------------------------------------------------
   Decimal strings and the model of Python float() and str()
   ------------------------------------------------------------------ -/

/-- Numeric value of a digit character. -/
def dval (c : Char) : Nat := c.toNat - 48

/-- Value of a digit string, read left to right. -/
def natOfDigits (l : List Char) : Nat := l.foldl (fun a c => 10 * a + dval c) 0

/-- The digit character of d, for d < 10. -/
def digitChar (d : Nat) : Char := Char.ofNat (48 + d)

/-- Structural worker for the decimal digits of a natural number; the fuel
only bounds the recursion and any fuel above the number is enough. -/
def natToDigitsAux : Nat → Nat → List Char → List Char
  | 0, _, acc => acc
  | fuel + 1, n, acc =>
    if n < 10 then digitChar n :: acc
    else natToDigitsAux fuel (n / 10) (digitChar (n % 10) :: acc)

/-- Decimal digits of a natural number, most significant first
(no leading zeros; 0 is "0"). -/
def natToDigits (n : Nat) : List Char := natToDigitsAux (n + 1) n []

/-- Decimal string of a natural number. -/
def natStr (n : Nat) : String := String.mk (natToDigits n)

/-- Model of Python str(i) on an int. -/
def intStr (i : Int) : String :=
  if i < 0 then "-" ++ natStr i.natAbs else natStr i.toNat

/-- Zero-pad a natural number to at least the given width
(the unsigned part of Python format 0Nd). -/
def padNat (width n : Nat) : String :=
  let s := natStr n
  if s.length < width then String.mk (List.replicate (width - s.length) '0') ++ s
  else s

/-- Python format i:0Nd on an int: the sign counts toward the width. -/
def padInt (width : Nat) (i : Int) : String :=
  if i < 0 then "-" ++ padNat (width - 1) i.natAbs else padNat width i.toNat

/-- Split a character list at the first character satisfying p; the second
component is the remainder after that character, when one was found. -/
def splitFirst (p : Char → Bool) : List Char → List Char × Option (List Char)
  | [] => ([], none)
  | c :: cs =>
    if p c then ([], some cs)
    else
      let r := splitFirst p cs
      (c :: r.1, r.2)

/-- Digits with an optional leading sign, as an integer; none when malformed. -/
def signedDigits (l : List Char) : Option Int :=
  match l with
  | '-' :: ds =>
    if ds ≠ [] ∧ ds.all Char.isDigit then some (-(natOfDigits ds : Int)) else none
  | '+' :: ds =>
    if ds ≠ [] ∧ ds.all Char.isDigit then some (natOfDigits ds) else none
  | ds =>
    if ds ≠ [] ∧ ds.all Char.isDigit then some (natOfDigits ds) else none

/-- Decimal mantissa: digits with at most one point and at least one digit.
Returns the digit value and the number of fractional digits. -/
def mantissa (l : List Char) : Option (Nat × Nat) :=
  let s := splitFirst (fun c => c == '.') l
  match s.2 with
  | none => if l ≠ [] ∧ l.all Char.isDigit then some (natOfDigits l, 0) else none
  | some fp =>
    if (s.1 ++ fp) ≠ [] ∧ s.1.all Char.isDigit ∧ fp.all Char.isDigit then
      some (natOfDigits (s.1 ++ fp), fp.length)
    else none

/-- Model of Python float(text) on decimal literals: optional sign, digits
with an optional point, optional exponent; none models a ValueError. The
special forms inf and nan and digit underscores are outside the model: no
temperature cell the pipeline reads takes those shapes. -/
def pyFloat (s : String) : Option Rat :=
  let cs := s.toList
  let sb : Int × List Char :=
    match cs with
    | '-' :: rest => (-1, rest)
    | '+' :: rest => (1, rest)
    | rest => (1, rest)
  let sp := splitFirst (fun c => c == 'e' || c == 'E') sb.2
  let ex : Option Int :=
    match sp.2 with
    | none => some 0
    | some e => signedDigits e
  match mantissa sp.1, ex with
  | some mf, some e =>
    some ((sb.1 : Rat) * (mf.1 : Rat) / (10 : Rat) ^ mf.2 * (10 : Rat) ^ e)
  | _, _ => none

/- ------------------------------------------------------------------
   Character-level models of the Python string methods the code uses
   (ASCII case mapping and ASCII whitespace: every string the pipeline
   compares case-insensitively or strips is ASCII)
   ------------------------------------------------------------------ -/

/-- Python str.lower on one character (ASCII range). -/
def pyLowerChar (c : Char) : Char :=
  if 'A' ≤ c ∧ c ≤ 'Z' then Char.ofNat (c.toNat + 32) else c

/-- Python str.lower (ASCII range). -/
def pyLower (s : String) : String := String.mk (s.data.map pyLowerChar)

/-- Python str.upper on one character (ASCII range). -/
def pyUpperChar (c : Char) : Char :=
  if 'a' ≤ c ∧ c ≤ 'z' then Char.ofNat (c.toNat - 32) else c

/-- Python str.upper (ASCII range). -/
def pyUpper (s : String) : String := String.mk (s.data.map pyUpperChar)

/-- The whitespace Python str.strip removes by default (ASCII part). -/
def isSpaceChar (c : Char) : Bool :=
  c == ' ' || c == '\t' || c == '\n' || c == '\r' || c == '\x0b' || c == '\x0c'

/-- Python str.strip(): drop leading and trailing whitespace. -/
def pyStrip (s : String) : String :=
  String.mk (((s.data.dropWhile isSpaceChar).reverse.dropWhile isSpaceChar).reverse)

/-- The memcmp text order sqlite applies under its default BINARY
collation, on the character lists of two strings (bytewise UTF-8 order
equals codepoint order). -/
def memLe : List Char → List Char → Bool
  | [], _ => true
  | _ :: _, [] => false
  | a1 :: as, b1 :: bs =>
    if a1.toNat < b1.toNat then true
    else if b1.toNat < a1.toNat then false
    else memLe as bs

/- ------------------------------------------------------------------
   Tabular parser (scrape_weather.WeatherScraper._parse_month_rows)
   ------------------------------------------------------------------ -/

/-- as_num of _parse_month_rows: permissive numeric cell parsing. Strip the
cell; empty text or the literal NA marker (case-insensitive) is absent; a
failed float parse is absent; otherwise the parsed number. -/
def asNum (val : Option String) : Option Rat :=
  match val with
  | none => none
  | some v =>
    let text := pyStrip v
    if text = "" then none
    else if pyUpper text = "NA" then none
    else pyFloat text

/-- The header actually present for a candidate name, resolved
case-insensitively against the first row of the page; a later key whose
lowercase form collides shadows an earlier one, as in the Python dict
comprehension of pick. -/
def lowerResolve (keys : List String) (cand : String) : Option String :=
  keys.reverse.find? (fun k => pyLower k == pyLower cand)

/-- pick of _parse_month_rows: the first candidate header present. -/
def pick (keys : List String) (cands : List String) : Option String :=
  cands.findSome? (fun c => lowerResolve keys c)

/-- The zero-padded "YYYY-MM" tag of the requested month
(Python f-string with formats 04d and 02d). -/
def monthTag (year month : Int) : String :=
  padInt 4 year ++ "-" ++ padInt 2 month

/-- Candidate headers for the date column. -/
def dateCands : List String := ["Date/Time", "Date", "Local Date"]

/-- Candidate headers for the max temperature column. -/
def maxCands : List String := ["Max Temp (°C)", "Max Temp (Â°C)", "Max Temp (C)"]

/-- Candidate headers for the min temperature column. -/
def minCands : List String := ["Min Temp (°C)", "Min Temp (Â°C)", "Min Temp (C)"]

/-- Candidate headers for the mean temperature column. -/
def meanCands : List String := ["Mean Temp (°C)", "Mean Temp (Â°C)", "Mean Temp (C)"]

/-- The date key one CSV row contributes, if the row is accepted
(_parse_month_rows lines 217-223): the stripped date cell must have at
least 10 characters and its first 7 must equal the zero-padded YYYY-MM tag
of the requested month; the key is the first 10 characters. -/
def rowDateKey (keys : List String) (year month : Int) (row : Row) : Option String :=
  let dstr :=
    match pick keys dateCands with
    | some c => pyStrip ((rowGet row c).getD "")
    | none => ""
  if dstr.length < 10 ∨ ¬ (dstr.take 7 = monthTag year month) then none
  else some (dstr.take 10)

/-- The Day record built from one accepted CSV row (lines 225-243). -/
def rowDay (keys : List String) (row : Row) : Day :=
  let num := fun (cands : List String) =>
    match pick keys cands with
    | some c => asNum (rowGet row c)
    | none => none
  { mn := num minCands, mx := num maxCands, av := num meanCands }

/-- _parse_month_rows: extract min / max / mean per accepted day. Columns
are resolved against the keys of the first row; every accepted row assigns
results[dkey]; rejected rows contribute nothing. -/
def parseMonthRows (rows : List Row) (year month : Int) : ObservationSet :=
  match rows with
  | [] => []
  | r0 :: _ =>
    let keys := r0.map Prod.fst
    rows.foldl
      (fun results row =>
        match rowDateKey keys year month row with
        | none => results
        | some dkey => dictInsert results dkey (rowDay keys row))
      []

/- ------------------------------------------------------------------
   Source fetcher (scrape_weather.WeatherScraper._fetch_month_csv)
   ------------------------------------------------------------------ -/

/-- The outcome of the single HTTP GET inside _fetch_month_csv. -/
inductive HttpOutcome where
  | success (body : String)
  | httpErr (code : Nat)
  | netErr
  deriving DecidableEq, Repr

/-- _fetch_month_csv over an abstract HTTP outcome and an abstract CSV
reader (csv.DictReader after decode; none models the reader raising).
An HTTPError with code 404 returns None (lines 165-167); an HTTPError with
any other code returns None (lines 168-175); any other exception returns
None (lines 176-178); a successful response returns its parsed rows, or []
when the CSV reader raises (lines 180-188). -/
def fetchMonthCsv (csvRead : String → Option (List Row)) (outcome : HttpOutcome) :
    Option (List Row) :=
  match outcome with
  | .httpErr _ => none
  | .netErr => none
  | .success body =>
    match csvRead body with
    | some rows => some rows
    | none => some []

/- ------------------------------------------------------------------
   Pagination driver (the three walks)
   ------------------------------------------------------------------ -/

/-- A (year, month) cursor, compared as a Python int tuple. -/
abbrev YM := Int × Int

/-- The per-month fetch the walks call: the composite of _fetch_month_csv
with the HTTP behaviour of each month. A deterministic function models one
fixed behaviour of the remote source across a walk. -/
abbrev Fetch := Int → Int → Option (List Row)

/-- The shared backward step: month -= 1, and when the month underflows
past January, December of the previous year. -/
def stepBack (ym : YM) : YM :=
  let m := ym.2 - 1
  if m = 0 then (ym.1 - 1, 12) else (ym.1, m)

/-- Python tuple comparison (a1, a2) >= (b1, b2), lexicographic. -/
def tupleGe (a b : YM) : Bool :=
  decide (b.1 < a.1 ∨ (a.1 = b.1 ∧ b.2 ≤ a.2))

/-- Loop body shared textually by scrape_backwards (fuel bounds the
unbounded while True; the Python loop is the behaviour for every
sufficiently large fuel). The trace records every month a fetch was issued
for, in order, the terminating fetch included. -/
def backAux (fetch : Fetch) : Nat → YM → List YM → ObservationSet →
    List YM × ObservationSet
  | 0, _, trace, out => (trace, out)
  | fuel + 1, ym, trace, out =>
    match fetch ym.1 ym.2 with
    | none => (trace ++ [ym], out)
    | some rows =>
      if rows.isEmpty then (trace ++ [ym], out)
      else backAux fetch fuel (stepBack ym)
        (trace ++ [ym]) (dictUpdate out (parseMonthRows rows ym.1 ym.2))

/-- scrape_weather.WeatherScraper.scrape_backwards with start month
(start.year, start.month), instrumented with the fetch trace. -/
def scrapeBackwards (fetch : Fetch) (fuel : Nat) (start : YM) :
    List YM × ObservationSet :=
  backAux fetch fuel start [] []

/-- The while remaining > 0 loop of scrape_last_months; the counter is the
Python variable remaining, decremented once per successful month. -/
def lastAux (fetch : Fetch) : Nat → YM → List YM → ObservationSet →
    List YM × ObservationSet
  | 0, _, trace, out => (trace, out)
  | rem + 1, ym, trace, out =>
    match fetch ym.1 ym.2 with
    | none => (trace ++ [ym], out)
    | some rows =>
      if rows.isEmpty then (trace ++ [ym], out)
      else lastAux fetch rem (stepBack ym)
        (trace ++ [ym]) (dictUpdate out (parseMonthRows rows ym.1 ym.2))

/-- scrape_weather.WeatherScraper.scrape_last_months with start month
(start.year, start.month), instrumented with the fetch trace. -/
def scrapeLastMonths (fetch : Fetch) (months : Int) (start : YM) :
    List YM × ObservationSet :=
  if months ≤ 0 then ([], []) else lastAux fetch months.toNat start [] []

/-- The while (year, month) >= end_older loop of scrape_range. The fuel is
an artifact bounding the recursion; with months in 1..12 the loop guard
fails, or a fetch terminates the walk, before rangeFuel iterations pass,
so the fuel never cuts the Python loop short. -/
def rangeAux (fetch : Fetch) (older : YM) : Nat → YM → List YM → ObservationSet →
    List YM × ObservationSet
  | 0, _, trace, out => (trace, out)
  | fuel + 1, ym, trace, out =>
    if tupleGe ym older then
      match fetch ym.1 ym.2 with
      | none => (trace ++ [ym], out)
      | some rows =>
        if rows.isEmpty then (trace ++ [ym], out)
        else rangeAux fetch older fuel (stepBack ym)
          (trace ++ [ym]) (dictUpdate out (parseMonthRows rows ym.1 ym.2))
    else (trace, out)

/-- One more iteration than the count of months from older up to newer. -/
def rangeFuel (newer older : YM) : Nat :=
  (12 * newer.1 + newer.2 - (12 * older.1 + older.2) + 1).toNat

/-- start_newer of scrape_range: (y1, m1) if (y1, m1) >= (y2, m2) else (y2, m2). -/
def normNewer (a b : YM) : YM := if tupleGe a b then a else b

/-- end_older of scrape_range: (y2, m2) if (y1, m1) >= (y2, m2) else (y1, m1). -/
def normOlder (a b : YM) : YM := if tupleGe a b then b else a

/-- scrape_weather.WeatherScraper.scrape_range, instrumented with the fetch
trace: normalize the two endpoints by Python tuple comparison, then walk
from the newer endpoint backward while the cursor has not passed the older
endpoint. -/
def scrapeRange (fetch : Fetch) (y1 m1 y2 m2 : Int) : List YM × ObservationSet :=
  let newer := normNewer (y1, m1) (y2, m2)
  let older := normOlder (y1, m1) (y2, m2)
  rangeAux fetch older (rangeFuel newer older) newer [] []

/-- The list of n consecutive months starting at ym and stepping backward:
the months a complete walk fetches. -/
def monthChain : Nat → YM → List YM
  | 0, _ => []
  | n + 1, ym => ym :: monthChain n (stepBack ym)

/- ------------------------------------------------------------------
   Dedup store (db_operations.DBOperations)
   ------------------------------------------------------------------ -/

/-- One persisted row of the weather table. -/
structure DBRow where
  sample_date : String
  location : String
  min_temp : Option Rat
  max_temp : Option Rat
  avg_temp : Option Rat
  deriving DecidableEq, Repr

/-- The triple a saved dict maps a date to: (min, max, mean). -/
abbrev Triple := Option Rat × Option Rat × Option Rat

/-- The database: none while the weather table does not exist, some rows
once created, in insertion order (the autoincrement id is the position). -/
abbrev DB := Option (List DBRow)

/-- DBOperations.initialize_db: CREATE TABLE IF NOT EXISTS weather. -/
def initializeDb (db : DB) : DB := some (db.getD [])

/-- Whether a (sample_date, location) key is already present. -/
def hasKey (tbl : List DBRow) (d loc : String) : Bool :=
  tbl.any (fun r => r.sample_date == d && r.location == loc)

/-- One INSERT OR IGNORE against UNIQUE(sample_date, location): append when
the key is absent (one change), silent no-op when present (zero changes). -/
def insertOrIgnore (tbl : List DBRow) (r : DBRow) : List DBRow × Nat :=
  if hasKey tbl r.sample_date r.location then (tbl, 0) else (tbl ++ [r], 1)

/-- One executemany iteration: run the INSERT OR IGNORE and add its change
count to the running cursor.rowcount. -/
def saveStep (acc : List DBRow × Nat) (r : DBRow) : List DBRow × Nat :=
  let s := insertOrIgnore acc.1 r
  (s.1, acc.2 + s.2)

/-- The DBRow built for one dict entry of save_data. -/
def mkRow (location : String) (p : String × Triple) : DBRow :=
  DBRow.mk p.1 location p.2.1 p.2.2.1 p.2.2.2

/-- DBOperations.save_data: ensure the schema, build one row per dict entry
with the instance location, executemany INSERT OR IGNORE in order, and
return cursor.rowcount, the summed sqlite change counts, that is the
number of rows actually inserted. -/
def saveData (location : String) (data : List (String × Triple)) (db : DB) :
    DB × Nat :=
  let tbl0 := (initializeDb db).getD []
  let rows := data.map (mkRow location)
  let res := rows.foldl saveStep (tbl0, 0)
  (some res.1, res.2)

/-- One row of the SELECT in fetch_data (the location column is not
selected). -/
structure SelRow where
  sample_date : String
  min_temp : Option Rat
  max_temp : Option Rat
  avg_temp : Option Rat
  deriving DecidableEq, Repr

/-- The projection the SELECT applies. -/
def selOf (r : DBRow) : SelRow :=
  ⟨r.sample_date, r.min_temp, r.max_temp, r.avg_temp⟩

/-- The WHERE clause: substr(sample_date, 1, 4) BETWEEN str(y1) AND str(y2),
a lexicographic text comparison (sqlite BINARY collation on UTF-8 agrees
with the codepoint order Lean strings use). -/
def inSpan (y1 y2 : Int) (r : DBRow) : Bool :=
  memLe (intStr y1).data (r.sample_date.take 4).data &&
  memLe (r.sample_date.take 4).data (intStr y2).data

/-- DBOperations.fetch_data: ensure the schema (so the OperationalError
retry of lines 98-113 cannot fire), then SELECT the rows in span ORDER BY
sample_date; the first component is the database after the call. -/
def fetchData (y1 y2 : Int) (db : DB) : DB × List SelRow :=
  let db1 := initializeDb db
  let tbl := db1.getD []
  let sel := (tbl.filter (inSpan y1 y2)).map selOf
  (db1, List.insertionSort (fun a b => memLe a.sample_date.data b.sample_date.data = true) sel)

/-- The store operations a caller can issue. -/
inductive StoreOp where
  | save (location : String) (data : List (String × Triple))
  | fetchR (y1 y2 : Int)

/-- The database after one operation. -/
def applyOp (db : DB) : StoreOp → DB
  | .save loc data => (saveData loc data db).1
  | .fetchR y1 y2 => (fetchData y1 y2 db).1

/-- The database after a sequence of operations. -/
def runOps (db : DB) (ops : List StoreOp) : DB := ops.foldl applyOp db

/-- No two rows share both the date and the location. -/
def uniqueKeys (tbl : List DBRow) : Prop :=
  tbl.Pairwise (fun a b => ¬ (a.sample_date = b.sample_date ∧ a.location = b.location))

/- ------------------------------------------------------------------
   Spec-side definition used only to judge claim C7
   ------------------------------------------------------------------ -/

/-- Whether a year is a leap year. -/
def leapYear (y : Nat) : Bool :=
  (y % 4 == 0 && y % 100 != 0) || y % 400 == 0

/-- Days in a month of a year. -/
def daysInMonth (y m : Nat) : Nat :=
  if m == 2 then (if leapYear y then 29 else 28)
  else if m == 4 || m == 6 || m == 9 || m == 11 then 30
  else 31

/-- Modelled from the spec wording of C7 only, for comparison with the
code: "its date column, truncated to the first 10 characters, parses as a
calendar date". A 10-character ISO day YYYY-MM-DD whose month and day are
real (leap years included). -/
def validDate10 (s : String) : Bool :=
  match s.toList with
  | [a, b, c, d, s1, e, f, s2, g, k] =>
    [a, b, c, d].all Char.isDigit && s1 == '-' &&
    [e, f].all Char.isDigit && s2 == '-' &&
    [g, k].all Char.isDigit &&
    (let mo := natOfDigits [e, f]
     let dy := natOfDigits [g, k]
     decide (1 ≤ mo) && decide (mo ≤ 12) && decide (1 ≤ dy) &&
     decide (dy ≤ daysInMonth (natOfDigits [a, b, c, d]) mo))
  | _ => false

/-- The numeric year a well-formed ISO date row carries: the value of the
first four characters. -/
def rowYear (r : DBRow) : Nat := natOfDigits (r.sample_date.take 4).data

/-- The year filter claim C9 asserts: the numeric year lies in [y1, y2]. -/
def inSpanNum (y1 y2 : Int) (r : DBRow) : Bool :=
  decide (y1 ≤ (rowYear r : Int)) && decide ((rowYear r : Int) ≤ y2)

/-- A stored row is year-well-formed when its date starts with the decimal
digits of a four-digit year. -/
def yearWellFormed (r : DBRow) : Prop :=
  ∃ y : Nat, 1000 ≤ y ∧ y ≤ 9999 ∧ r.sample_date.take 4 = natStr y

/- ------------------------------------------------------------------
   Helper lemmas about the walks
   ------------------------------------------------------------------ -/

/-- Linear month index of a cursor. -/
def ymIdx (ym : YM) : Int := 12 * ym.1 + ym.2

lemma isEmpty_false_of_ne {l : List Row} (h : l ≠ []) : l.isEmpty = false := by
  cases l with
  | nil => exact absurd rfl h
  | cons a as => rfl

lemma stepBack_spec (ym : YM) (h1 : 1 ≤ ym.2) (h2 : ym.2 ≤ 12) :
    ymIdx (stepBack ym) = ymIdx ym - 1 ∧
    1 ≤ (stepBack ym).2 ∧ (stepBack ym).2 ≤ 12 := by
  unfold stepBack ymIdx
  by_cases hm : ym.2 - 1 = 0 <;> simp only [hm, if_true, if_false, reduceIte] <;> omega

lemma tupleGe_iff (a b : YM) (ha1 : 1 ≤ a.2) (ha2 : a.2 ≤ 12)
    (hb1 : 1 ≤ b.2) (hb2 : b.2 ≤ 12) :
    tupleGe a b = true ↔ ymIdx b ≤ ymIdx a := by
  unfold tupleGe ymIdx
  rw [decide_eq_true_eq]
  constructor
  · rintro (h | ⟨h, h2⟩) <;> omega
  · intro h
    by_cases hy : a.1 = b.1
    · right; exact ⟨hy, by omega⟩
    · left; omega

lemma tupleGe_total (a b : YM) : tupleGe a b = true ∨ tupleGe b a = true := by
  unfold tupleGe
  rw [decide_eq_true_eq, decide_eq_true_eq]
  by_cases h : a.1 = b.1
  · by_cases h2 : a.2 ≤ b.2
    · right; right; exact ⟨h.symm, h2⟩
    · left; right; exact ⟨h, by omega⟩
  · by_cases h3 : a.1 < b.1
    · right; left; exact h3
    · left; left; omega

lemma tupleGe_antisymm (a b : YM) (h1 : tupleGe a b = true) (h2 : tupleGe b a = true) :
    a = b := by
  unfold tupleGe at h1 h2
  rw [decide_eq_true_eq] at h1 h2
  have ha : a.1 = b.1 ∧ a.2 = b.2 := by
    rcases h1 with h | ⟨h, h2a⟩ <;> rcases h2 with g | ⟨g, g2⟩ <;> omega
  exact Prod.ext_iff.mpr ha

lemma monthChain_cons (n : Nat) (ym : YM) :
    monthChain (n + 1) ym = ym :: monthChain n (stepBack ym) := rfl


/- Step equations for the three loops. -/

lemma backAux_none (fetch : Fetch) (k : Nat) (ym : YM) (trace : List YM)
    (out : ObservationSet) (hf : fetch ym.1 ym.2 = none) :
    backAux fetch (k + 1) ym trace out = (trace ++ [ym], out) := by
  unfold backAux
  rw [hf]

lemma backAux_empty (fetch : Fetch) (k : Nat) (ym : YM) (trace : List YM)
    (out : ObservationSet) (hf : fetch ym.1 ym.2 = some []) :
    backAux fetch (k + 1) ym trace out = (trace ++ [ym], out) := by
  unfold backAux
  rw [hf]
  rfl

lemma backAux_cont (fetch : Fetch) (k : Nat) (ym : YM) (trace : List YM)
    (out : ObservationSet) (rows : List Row)
    (hf : fetch ym.1 ym.2 = some rows) (hne : rows ≠ []) :
    backAux fetch (k + 1) ym trace out
      = backAux fetch k (stepBack ym) (trace ++ [ym])
          (dictUpdate out (parseMonthRows rows ym.1 ym.2)) := by
  conv_lhs => unfold backAux
  rw [hf]
  dsimp only
  rw [isEmpty_false_of_ne hne]
  simp only [Bool.false_eq_true, if_false]

lemma lastAux_none (fetch : Fetch) (k : Nat) (ym : YM) (trace : List YM)
    (out : ObservationSet) (hf : fetch ym.1 ym.2 = none) :
    lastAux fetch (k + 1) ym trace out = (trace ++ [ym], out) := by
  unfold lastAux
  rw [hf]

lemma lastAux_empty (fetch : Fetch) (k : Nat) (ym : YM) (trace : List YM)
    (out : ObservationSet) (hf : fetch ym.1 ym.2 = some []) :
    lastAux fetch (k + 1) ym trace out = (trace ++ [ym], out) := by
  unfold lastAux
  rw [hf]
  rfl

lemma lastAux_cont (fetch : Fetch) (k : Nat) (ym : YM) (trace : List YM)
    (out : ObservationSet) (rows : List Row)
    (hf : fetch ym.1 ym.2 = some rows) (hne : rows ≠ []) :
    lastAux fetch (k + 1) ym trace out
      = lastAux fetch k (stepBack ym) (trace ++ [ym])
          (dictUpdate out (parseMonthRows rows ym.1 ym.2)) := by
  conv_lhs => unfold lastAux
  rw [hf]
  dsimp only
  rw [isEmpty_false_of_ne hne]
  simp only [Bool.false_eq_true, if_false]

lemma rangeAux_none (fetch : Fetch) (older : YM) (k : Nat) (ym : YM)
    (trace : List YM) (out : ObservationSet)
    (hg : tupleGe ym older = true) (hf : fetch ym.1 ym.2 = none) :
    rangeAux fetch older (k + 1) ym trace out = (trace ++ [ym], out) := by
  unfold rangeAux
  rw [hg, if_pos rfl, hf]

lemma rangeAux_empty (fetch : Fetch) (older : YM) (k : Nat) (ym : YM)
    (trace : List YM) (out : ObservationSet)
    (hg : tupleGe ym older = true) (hf : fetch ym.1 ym.2 = some []) :
    rangeAux fetch older (k + 1) ym trace out = (trace ++ [ym], out) := by
  unfold rangeAux
  rw [hg, if_pos rfl, hf]
  rfl

lemma rangeAux_cont (fetch : Fetch) (older : YM) (k : Nat) (ym : YM)
    (trace : List YM) (out : ObservationSet) (rows : List Row)
    (hg : tupleGe ym older = true) (hf : fetch ym.1 ym.2 = some rows)
    (hne : rows ≠ []) :
    rangeAux fetch older (k + 1) ym trace out
      = rangeAux fetch older k (stepBack ym) (trace ++ [ym])
          (dictUpdate out (parseMonthRows rows ym.1 ym.2)) := by
  conv_lhs => unfold rangeAux
  rw [hg, if_pos rfl, hf]
  dsimp only
  rw [isEmpty_false_of_ne hne]
  simp only [Bool.false_eq_true, if_false]

lemma rangeAux_stop (fetch : Fetch) (older : YM) (k : Nat) (ym : YM)
    (trace : List YM) (out : ObservationSet) (hg : tupleGe ym older = false) :
    rangeAux fetch older (k + 1) ym trace out = (trace, out) := by
  unfold rangeAux
  rw [hg]
  simp only [Bool.false_eq_true, if_false]

/-- When every month of the chain fetches a nonempty row list, the
last-N-months loop issues exactly those fetches, in order. -/
lemma lastAux_chain (fetch : Fetch) :
    ∀ (n : Nat) (ym : YM) (trace : List YM) (out : ObservationSet),
      (∀ c ∈ monthChain n ym, ∃ rows, fetch c.1 c.2 = some rows ∧ rows ≠ []) →
      (lastAux fetch n ym trace out).1 = trace ++ monthChain n ym := by
  intro n
  induction n with
  | zero => intro ym trace out _; simp [lastAux, monthChain]
  | succ k ih =>
    intro ym trace out hs
    obtain ⟨rows, hf, hne⟩ :=
      hs ym (by rw [monthChain_cons]; exact List.mem_cons_self _ _)
    rw [lastAux_cont fetch k ym trace out rows hf hne, monthChain_cons,
      ih (stepBack ym) (trace ++ [ym]) _ ?_]
    · simp
    · intro c hc
      exact hs c (by rw [monthChain_cons]; exact List.mem_cons_of_mem _ hc)

/-- C6: bounded walk fetches exactly n months. For every n > 0 and start
month, when no fetch of the walk returns None or an empty row list,
scrape_last_months issues fetches for exactly the n consecutive calendar
months that begin at the start month and step backward (rolling the year
past January), and no other months. -/
theorem scrapeLastMonths_exact_trace (fetch : Fetch) (n : Int) (start : YM)
    (hn : 0 < n)
    (hs : ∀ c ∈ monthChain n.toNat start,
      ∃ rows, fetch c.1 c.2 = some rows ∧ rows ≠ []) :
    (scrapeLastMonths fetch n start).1 = monthChain n.toNat start := by
  unfold scrapeLastMonths
  rw [if_neg (by omega)]
  have h := lastAux_chain fetch n.toNat start [] [] hs
  rwa [List.nil_append] at h

/-- Witness for C6 at the instance the spec names: three months from
2024-05 fetch exactly 2024-05, 2024-04 and 2024-03. -/
theorem scrapeLastMonths_exact_trace_witness :
    (scrapeLastMonths (fun _ _ => some [[("Date/Time", "x")]]) 3 (2024, 5)).1
      = [(2024, 5), (2024, 4), (2024, 3)] := by
  have h := scrapeLastMonths_exact_trace (fun _ _ => some [[("Date/Time", "x")]])
    3 (2024, 5) (by norm_num)
    (by
      intro c _
      exact ⟨[[("Date/Time", "x")]], rfl, by simp⟩)
  rw [h]
  rfl

/-- C4 counterexample: the Source Fetcher does not report a 404 and the
other failures as two distinct values. At a concrete input, the value
returned for HTTP 404 equals the value returned for a network error and
equals the value returned for HTTP 500 — all three are None — so no caller
can tell them apart. -/
theorem fetchMonthCsv_conflates :
    fetchMonthCsv (fun _ => some []) (.httpErr 404)
        = fetchMonthCsv (fun _ => some []) .netErr ∧
    fetchMonthCsv (fun _ => some []) (.httpErr 404)
        = fetchMonthCsv (fun _ => some []) (.httpErr 500) :=
  ⟨rfl, rfl⟩

/-- C4 amended: _fetch_month_csv reports the not-found response and every
other failure (timeout, connection error, any non-2xx status) with one and
the same sentinel, None; that sentinel is distinct from the value of every
successful fetch, which is always a row list. -/
theorem fetchMonthCsv_failure_sentinel (csvRead : String → Option (List Row))
    (code : Nat) (body : String) :
    fetchMonthCsv csvRead (.httpErr code) = none ∧
    fetchMonthCsv csvRead .netErr = none ∧
    (fetchMonthCsv csvRead (.success body)).isSome = true := by
  refine ⟨rfl, rfl, ?_⟩
  unfold fetchMonthCsv
  cases h : csvRead body <;> simp [h]

lemma dictUpdate_nil (os : ObservationSet) : dictUpdate os [] = os := rfl

/-- C10: in all three walks, a fetch that yields zero CSV rows — None after
an HTTP or network failure, or an empty row list after a failed CSV decode
or a data-free page — terminates the walk at that month and the
observations accumulated so far are returned, the empty list terminating
exactly as None does; while a month whose nonempty rows are all rejected
by the date filter (a page parsed to no observations) does not terminate
the walk: the loop moves to the previous month, accumulator unchanged. -/
theorem walks_stop_on_rowfree_continue_on_rejected
    (fNone fEmpty fRows : Fetch) (ym older : YM) (rows : List Row)
    (fuel : Nat) (trace : List YM) (out : ObservationSet)
    (hN : fNone ym.1 ym.2 = none)
    (hE : fEmpty ym.1 ym.2 = some [])
    (hR : fRows ym.1 ym.2 = some rows)
    (hne : rows ≠ [])
    (hrej : parseMonthRows rows ym.1 ym.2 = [])
    (hg : tupleGe ym older = true) :
    (backAux fNone (fuel + 1) ym trace out = (trace ++ [ym], out) ∧
     backAux fEmpty (fuel + 1) ym trace out = (trace ++ [ym], out) ∧
     backAux fRows (fuel + 1) ym trace out
       = backAux fRows fuel (stepBack ym) (trace ++ [ym]) out) ∧
    (lastAux fNone (fuel + 1) ym trace out = (trace ++ [ym], out) ∧
     lastAux fEmpty (fuel + 1) ym trace out = (trace ++ [ym], out) ∧
     lastAux fRows (fuel + 1) ym trace out
       = lastAux fRows fuel (stepBack ym) (trace ++ [ym]) out) ∧
    (rangeAux fNone older (fuel + 1) ym trace out = (trace ++ [ym], out) ∧
     rangeAux fEmpty older (fuel + 1) ym trace out = (trace ++ [ym], out) ∧
     rangeAux fRows older (fuel + 1) ym trace out
       = rangeAux fRows older fuel (stepBack ym) (trace ++ [ym]) out) := by
  refine ⟨⟨backAux_none _ _ _ _ _ hN, backAux_empty _ _ _ _ _ hE, ?_⟩,
    ⟨lastAux_none _ _ _ _ _ hN, lastAux_empty _ _ _ _ _ hE, ?_⟩,
    ⟨rangeAux_none _ _ _ _ _ _ hg hN, rangeAux_empty _ _ _ _ _ _ hg hE, ?_⟩⟩
  · rw [backAux_cont _ _ _ _ _ _ hR hne, hrej, dictUpdate_nil]
  · rw [lastAux_cont _ _ _ _ _ _ hR hne, hrej, dictUpdate_nil]
  · rw [rangeAux_cont _ _ _ _ _ _ _ hg hR hne, hrej, dictUpdate_nil]

/-- Witness for C10 at concrete inputs: an empty page at 2024-05 stops all
three walks; a page whose one row is rejected by the date filter lets all
three continue. -/
theorem walks_stop_on_rowfree_continue_on_rejected_witness :
    (backAux (fun _ _ => none) 1 (2024, 5) [] [] = ([(2024, 5)], []) ∧
     backAux (fun _ _ => some []) 1 (2024, 5) [] [] = ([(2024, 5)], []) ∧
     backAux (fun _ _ => some [[("Date/Time", "Sum")]]) 1 (2024, 5) [] []
       = backAux (fun _ _ => some [[("Date/Time", "Sum")]]) 0 (2024, 4) [(2024, 5)] []) ∧
    (lastAux (fun _ _ => none) 1 (2024, 5) [] [] = ([(2024, 5)], []) ∧
     lastAux (fun _ _ => some []) 1 (2024, 5) [] [] = ([(2024, 5)], []) ∧
     lastAux (fun _ _ => some [[("Date/Time", "Sum")]]) 1 (2024, 5) [] []
       = lastAux (fun _ _ => some [[("Date/Time", "Sum")]]) 0 (2024, 4) [(2024, 5)] []) ∧
    (rangeAux (fun _ _ => none) (2024, 1) 1 (2024, 5) [] [] = ([(2024, 5)], []) ∧
     rangeAux (fun _ _ => some []) (2024, 1) 1 (2024, 5) [] [] = ([(2024, 5)], []) ∧
     rangeAux (fun _ _ => some [[("Date/Time", "Sum")]]) (2024, 1) 1 (2024, 5) [] []
       = rangeAux (fun _ _ => some [[("Date/Time", "Sum")]]) (2024, 1) 0 (2024, 4) [(2024, 5)] []) := by
  have h := walks_stop_on_rowfree_continue_on_rejected
    (fun _ _ => none) (fun _ _ => some []) (fun _ _ => some [[("Date/Time", "Sum")]])
    (2024, 5) (2024, 1) [[("Date/Time", "Sum")]] 0 [] []
    rfl rfl rfl (by simp) (by rfl) (by rfl)
  have hs : stepBack ((2024 : Int), (5 : Int)) = (2024, 4) := by
    unfold stepBack
    norm_num
  rw [hs] at h
  exact h

lemma normNewer_comm (a b : YM) : normNewer a b = normNewer b a := by
  unfold normNewer
  by_cases h : tupleGe a b = true <;> by_cases h2 : tupleGe b a = true
  · rw [if_pos h, if_pos h2]
    exact tupleGe_antisymm a b h h2
  · rw [if_pos h, if_neg (by simp [h2])]
  · rw [if_neg (by simp [h]), if_pos h2]
  · rcases tupleGe_total a b with h3 | h3
    · exact absurd h3 h
    · exact absurd h3 h2

lemma normOlder_comm (a b : YM) : normOlder a b = normOlder b a := by
  unfold normOlder
  by_cases h : tupleGe a b = true <;> by_cases h2 : tupleGe b a = true
  · rw [if_pos h, if_pos h2]
    exact tupleGe_antisymm b a h2 h
  · rw [if_pos h, if_neg (by simp [h2])]
  · rw [if_neg (by simp [h]), if_pos h2]
  · rcases tupleGe_total a b with h3 | h3
    · exact absurd h3 h
    · exact absurd h3 h2

lemma norm_ge (a b : YM) : tupleGe (normNewer a b) (normOlder a b) = true := by
  unfold normNewer normOlder
  by_cases h : tupleGe a b = true
  · rw [if_pos h, if_pos h]
    exact h
  · rw [if_neg (by simp [h]), if_neg (by simp [h])]
    rcases tupleGe_total a b with h3 | h3
    · exact absurd h3 h
    · exact h3

/-- When the walk starts k months above the older bound and every month of
the chain fetches a nonempty row list, the range loop issues exactly the
fetches of the chain, in order. -/
lemma rangeAux_chain (fetch : Fetch) (older : YM) (ho1 : 1 ≤ older.2)
    (ho2 : older.2 ≤ 12) :
    ∀ (k : Nat) (ym : YM) (trace : List YM) (out : ObservationSet),
      1 ≤ ym.2 → ym.2 ≤ 12 →
      ymIdx ym - ymIdx older + 1 = (k : Int) →
      (∀ c ∈ monthChain k ym, ∃ rows, fetch c.1 c.2 = some rows ∧ rows ≠ []) →
      (rangeAux fetch older k ym trace out).1 = trace ++ monthChain k ym := by
  intro k
  induction k with
  | zero => intro ym trace out _ _ _ _; simp [rangeAux, monthChain]
  | succ k ih =>
    intro ym trace out hm1 hm2 hk hs
    obtain ⟨rows, hf, hne⟩ :=
      hs ym (by rw [monthChain_cons]; exact List.mem_cons_self _ _)
    have hg : tupleGe ym older = true := by
      rw [tupleGe_iff ym older hm1 hm2 ho1 ho2]
      push_cast at hk
      omega
    obtain ⟨hidx, hsb1, hsb2⟩ := stepBack_spec ym hm1 hm2
    rw [rangeAux_cont fetch older k ym trace out rows hg hf hne, monthChain_cons,
      ih (stepBack ym) (trace ++ [ym]) _ hsb1 hsb2 (by push_cast at hk ⊢; omega) ?_]
    · simp
    · intro c hc
      exact hs c (by rw [monthChain_cons]; exact List.mem_cons_of_mem _ hc)

/-- The chain of k+1 backward months starting k above b ends exactly at b. -/
lemma monthChain_getLast (k : Nat) :
    ∀ (a b : YM), 1 ≤ a.2 → a.2 ≤ 12 → 1 ≤ b.2 → b.2 ≤ 12 →
      ymIdx a - ymIdx b = (k : Int) →
      (monthChain (k + 1) a).getLast? = some b := by
  induction k with
  | zero =>
    intro a b ha1 ha2 hb1 hb2 hk
    have hab : a = b := by
      refine Prod.ext_iff.mpr ⟨?_, ?_⟩ <;>
        (unfold ymIdx at hk; push_cast at hk; omega)
    rw [hab]
    rfl
  | succ k ih =>
    intro a b ha1 ha2 hb1 hb2 hk
    obtain ⟨hidx, hsb1, hsb2⟩ := stepBack_spec a ha1 ha2
    rw [monthChain_cons, monthChain_cons, List.getLast?_cons_cons, ← monthChain_cons]
    exact ih (stepBack a) b hsb1 hsb2 hb1 hb2 (by push_cast at hk ⊢; omega)

lemma norm_cases (a b : YM) :
    (normNewer a b = a ∧ normOlder a b = b) ∨
    (normNewer a b = b ∧ normOlder a b = a) := by
  unfold normNewer normOlder
  by_cases h : tupleGe a b = true
  · left
    rw [if_pos h, if_pos h]
    exact ⟨rfl, rfl⟩
  · right
    rw [if_neg (by simp [h]), if_neg (by simp [h])]
    exact ⟨rfl, rfl⟩

/-- C5: range-endpoint commutativity and traversal order. With months in
1..12 and one fixed fetch behaviour, scrape_range called with its
endpoints in either order issues the identical fetch sequence and returns
the identical ObservationSet; and when every month of the normalized range
fetches a nonempty row list, the trace is exactly the chain of consecutive
months from the chronologically newer endpoint stepping one month at a
time backward to the chronologically older endpoint inclusive. -/
theorem scrapeRange_comm_and_chain (fetch : Fetch) (y1 m1 y2 m2 : Int)
    (hm1a : 1 ≤ m1) (hm1b : m1 ≤ 12) (hm2a : 1 ≤ m2) (hm2b : m2 ≤ 12) :
    scrapeRange fetch y1 m1 y2 m2 = scrapeRange fetch y2 m2 y1 m1 ∧
    ((∀ c ∈ monthChain
        (rangeFuel (normNewer (y1, m1) (y2, m2)) (normOlder (y1, m1) (y2, m2)))
        (normNewer (y1, m1) (y2, m2)),
        ∃ rows, fetch c.1 c.2 = some rows ∧ rows ≠ []) →
      (scrapeRange fetch y1 m1 y2 m2).1
        = monthChain
            (rangeFuel (normNewer (y1, m1) (y2, m2)) (normOlder (y1, m1) (y2, m2)))
            (normNewer (y1, m1) (y2, m2)) ∧
      (scrapeRange fetch y1 m1 y2 m2).1.head? = some (normNewer (y1, m1) (y2, m2)) ∧
      (scrapeRange fetch y1 m1 y2 m2).1.getLast? = some (normOlder (y1, m1) (y2, m2))) := by
  constructor
  · simp only [scrapeRange]
    rw [normNewer_comm (y1, m1) (y2, m2), normOlder_comm (y1, m1) (y2, m2)]
  · intro hs
    have hge := norm_ge (y1, m1) (y2, m2)
    have hbounds : 1 ≤ (normNewer (y1, m1) (y2, m2)).2 ∧
        (normNewer (y1, m1) (y2, m2)).2 ≤ 12 ∧
        1 ≤ (normOlder (y1, m1) (y2, m2)).2 ∧
        (normOlder (y1, m1) (y2, m2)).2 ≤ 12 := by
      rcases norm_cases (y1, m1) (y2, m2) with ⟨hn, ho⟩ | ⟨hn, ho⟩ <;>
        rw [hn, ho] <;> exact ⟨by assumption, by assumption, by assumption, by assumption⟩
    obtain ⟨hn1, hn2, ho1, ho2⟩ := hbounds
    have hidx : ymIdx (normOlder (y1, m1) (y2, m2))
        ≤ ymIdx (normNewer (y1, m1) (y2, m2)) :=
      (tupleGe_iff _ _ hn1 hn2 ho1 ho2).mp hge
    have hfuel : ((rangeFuel (normNewer (y1, m1) (y2, m2))
        (normOlder (y1, m1) (y2, m2)) : Nat) : Int)
        = ymIdx (normNewer (y1, m1) (y2, m2))
          - ymIdx (normOlder (y1, m1) (y2, m2)) + 1 := by
      unfold rangeFuel ymIdx
      rw [Int.toNat_of_nonneg (by unfold ymIdx at hidx; omega)]
    have hmain := rangeAux_chain fetch (normOlder (y1, m1) (y2, m2)) ho1 ho2
      (rangeFuel (normNewer (y1, m1) (y2, m2)) (normOlder (y1, m1) (y2, m2)))
      (normNewer (y1, m1) (y2, m2)) [] [] hn1 hn2 (by omega) hs
    have hres : (scrapeRange fetch y1 m1 y2 m2).1
        = monthChain
            (rangeFuel (normNewer (y1, m1) (y2, m2)) (normOlder (y1, m1) (y2, m2)))
            (normNewer (y1, m1) (y2, m2)) := by
      simp only [scrapeRange]
      rw [hmain]
      simp
    refine ⟨hres, ?_, ?_⟩
    · rw [hres]
      obtain ⟨k, hk⟩ : ∃ k, rangeFuel (normNewer (y1, m1) (y2, m2))
          (normOlder (y1, m1) (y2, m2)) = k + 1 :=
        ⟨rangeFuel (normNewer (y1, m1) (y2, m2)) (normOlder (y1, m1) (y2, m2)) - 1,
          by omega⟩
      rw [hk, monthChain_cons]
      rfl
    · rw [hres]
      obtain ⟨k, hk⟩ : ∃ k, rangeFuel (normNewer (y1, m1) (y2, m2))
          (normOlder (y1, m1) (y2, m2)) = k + 1 :=
        ⟨rangeFuel (normNewer (y1, m1) (y2, m2)) (normOlder (y1, m1) (y2, m2)) - 1,
          by omega⟩
      rw [hk]
      exact monthChain_getLast k _ _ hn1 hn2 ho1 ho2 (by rw [hk] at hfuel; push_cast at hfuel; omega)

/-- Witness for C5 at the endpoints the spec names: 2023-03 and 2024-09 in
both orders, under a fetch that always succeeds. -/
theorem scrapeRange_comm_and_chain_witness :
    scrapeRange (fun _ _ => some [[("d", "x")]]) 2023 3 2024 9
      = scrapeRange (fun _ _ => some [[("d", "x")]]) 2024 9 2023 3 ∧
    (scrapeRange (fun _ _ => some [[("d", "x")]]) 2023 3 2024 9).1.head?
      = some (2024, 9) ∧
    (scrapeRange (fun _ _ => some [[("d", "x")]]) 2023 3 2024 9).1.getLast?
      = some (2023, 3) := by
  have h := scrapeRange_comm_and_chain (fun _ _ => some [[("d", "x")]])
    2023 3 2024 9 (by norm_num) (by norm_num) (by norm_num) (by norm_num)
  have h2 := h.2 (by intro c _; exact ⟨[[("d", "x")]], rfl, by simp⟩)
  refine ⟨h.1, ?_, ?_⟩
  · rw [h2.2.1]
    rfl
  · rw [h2.2.2]
    rfl

/- ------------------------------------------------------------------
   Helper lemmas about the store
   ------------------------------------------------------------------ -/

lemma hasKey_append (tbl ext : List DBRow) (d loc : String)
    (h : hasKey tbl d loc = true) : hasKey (tbl ++ ext) d loc = true := by
  unfold hasKey at h ⊢
  rw [List.any_append, h]
  rfl

lemma saveStep_present (tbl : List DBRow) (c : Nat) (r : DBRow)
    (h : hasKey tbl r.sample_date r.location = true) :
    saveStep (tbl, c) r = (tbl, c) := by
  unfold saveStep insertOrIgnore
  rw [if_pos h]
  rfl

lemma saveStep_absent (tbl : List DBRow) (c : Nat) (r : DBRow)
    (h : hasKey tbl r.sample_date r.location = false) :
    saveStep (tbl, c) r = (tbl ++ [r], c + 1) := by
  unfold saveStep insertOrIgnore
  rw [if_neg (by simp [h])]

lemma saveFold_extends (rows : List DBRow) :
    ∀ (tbl : List DBRow) (c : Nat),
      ∃ ext, (rows.foldl saveStep (tbl, c)).1 = tbl ++ ext := by
  induction rows with
  | nil => intro tbl c; exact ⟨[], by simp⟩
  | cons r rs ih =>
    intro tbl c
    by_cases h : hasKey tbl r.sample_date r.location = true
    · rw [List.foldl_cons, saveStep_present tbl c r h]
      exact ih tbl c
    · rw [List.foldl_cons, saveStep_absent tbl c r (by simpa using h)]
      obtain ⟨ext, he⟩ := ih (tbl ++ [r]) (c + 1)
      exact ⟨[r] ++ ext, by rw [he, List.append_assoc]⟩

lemma saveFold_mono (rows : List DBRow) (tbl : List DBRow) (c : Nat)
    (d loc : String) (h : hasKey tbl d loc = true) :
    hasKey ((rows.foldl saveStep (tbl, c)).1) d loc = true := by
  obtain ⟨ext, he⟩ := saveFold_extends rows tbl c
  rw [he]
  exact hasKey_append tbl ext d loc h

lemma saveFold_inserts (rows : List DBRow) :
    ∀ (tbl : List DBRow) (c : Nat) (r : DBRow), r ∈ rows →
      hasKey ((rows.foldl saveStep (tbl, c)).1) r.sample_date r.location = true := by
  induction rows with
  | nil => intro tbl c r hr; cases hr
  | cons a rs ih =>
    intro tbl c r hr
    rw [List.foldl_cons]
    rcases List.mem_cons.mp hr with rfl | hr2
    · by_cases h : hasKey tbl r.sample_date r.location = true
      · rw [saveStep_present tbl c r h]
        exact saveFold_mono rs tbl c _ _ h
      · rw [saveStep_absent tbl c r (by simpa using h)]
        refine saveFold_mono rs (tbl ++ [r]) (c + 1) _ _ ?_
        unfold hasKey
        rw [List.any_append]
        simp
    · by_cases h : hasKey tbl a.sample_date a.location = true
      · rw [saveStep_present tbl c a h]
        exact ih tbl c r hr2
      · rw [saveStep_absent tbl c a (by simpa using h)]
        exact ih (tbl ++ [a]) (c + 1) r hr2

lemma saveFold_all_present (rows : List DBRow) :
    ∀ (tbl : List DBRow) (c : Nat),
      (∀ r ∈ rows, hasKey tbl r.sample_date r.location = true) →
      rows.foldl saveStep (tbl, c) = (tbl, c) := by
  induction rows with
  | nil => intro tbl c _; rfl
  | cons r rs ih =>
    intro tbl c hall
    rw [List.foldl_cons, saveStep_present tbl c r (hall r (List.mem_cons_self _ _))]
    exact ih tbl c (fun q hq => hall q (List.mem_cons_of_mem _ hq))

lemma saveFold_count (rows : List DBRow) :
    ∀ (tbl : List DBRow) (c : Nat),
      (rows.map (fun r => (r.sample_date, r.location))).Nodup →
      (rows.foldl saveStep (tbl, c)).2
        = c + (rows.filter (fun r => !(hasKey tbl r.sample_date r.location))).length := by
  induction rows with
  | nil => intro tbl c _; simp
  | cons r rs ih =>
    intro tbl c hnd
    rw [List.map_cons, List.nodup_cons] at hnd
    obtain ⟨hknotin, hnd2⟩ := hnd
    by_cases h : hasKey tbl r.sample_date r.location = true
    · rw [List.foldl_cons, saveStep_present tbl c r h, ih tbl c hnd2]
      have hfr : (rs.filter (fun q => !(hasKey tbl q.sample_date q.location)))
          = ((r :: rs).filter (fun q => !(hasKey tbl q.sample_date q.location))) := by
        rw [List.filter_cons]
        rw [if_neg (by simp [h])]
      rw [hfr]
    · rw [List.foldl_cons, saveStep_absent tbl c r (by simpa using h),
        ih (tbl ++ [r]) (c + 1) hnd2]
      have hsame : rs.filter (fun q => !(hasKey (tbl ++ [r]) q.sample_date q.location))
          = rs.filter (fun q => !(hasKey tbl q.sample_date q.location)) := by
        refine List.filter_congr ?_
        intro q hq
        have hkey : (r.sample_date, r.location) ≠ (q.sample_date, q.location) := by
          intro hcon
          exact hknotin (by
            rw [hcon]
            exact List.mem_map_of_mem _ hq)
        have happ : hasKey (tbl ++ [r]) q.sample_date q.location
            = hasKey tbl q.sample_date q.location := by
          unfold hasKey
          rw [List.any_append]
          have hone : ([r].any fun x => x.sample_date == q.sample_date
              && x.location == q.location) = false := by
            simp only [List.any_cons, List.any_nil, Bool.or_false]
            rw [Bool.and_eq_false_iff]
            by_cases hd : r.sample_date = q.sample_date
            · right
              rw [beq_eq_false_iff_ne]
              intro hl
              exact hkey (by rw [hd, hl])
            · left
              rw [beq_eq_false_iff_ne]
              exact hd
          rw [hone, Bool.or_false]
        rw [happ]
      rw [hsame]
      have hkeep : ((r :: rs).filter (fun q => !(hasKey tbl q.sample_date q.location))).length
          = (rs.filter (fun q => !(hasKey tbl q.sample_date q.location))).length + 1 := by
        rw [List.filter_cons, if_pos (by simp [h])]
        simp [Nat.add_comm]
      rw [hkeep]
      omega

lemma length_filter_map {α β : Type} (f : α → β) (p : β → Bool) (l : List α) :
    ((l.map f).filter p).length = (l.filter (fun x => p (f x))).length := by
  induction l with
  | nil => rfl
  | cons a l2 ih =>
    rw [List.map_cons, List.filter_cons, List.filter_cons]
    by_cases h : p (f a) = true
    · rw [if_pos h, if_pos h]
      simp [ih]
    · rw [if_neg h, if_neg h]
      exact ih

lemma saveData_def (loc : String) (data : List (String × Triple)) (db : DB) :
    saveData loc data db
      = (some (((data.map (mkRow loc)).foldl saveStep
            ((initializeDb db).getD [], 0)).1),
         ((data.map (mkRow loc)).foldl saveStep
            ((initializeDb db).getD [], 0)).2) := rfl

/-- C2: idempotence of save and the net-new row count. For every location,
batch and database: when the batch keys are distinct (as the keys of a
Python dict are), the count save_data returns is exactly the number of
batch entries whose (date, location) key is not already persisted; and
saving the same batch a second time returns 0 and leaves the stored rows
unchanged. -/
theorem saveData_idempotent_count (loc : String) (data : List (String × Triple))
    (db : DB) :
    ((data.map Prod.fst).Nodup →
      (saveData loc data db).2
        = (data.filter
            (fun p => !(hasKey ((initializeDb db).getD []) p.1 loc))).length) ∧
    saveData loc data (saveData loc data db).1 = ((saveData loc data db).1, 0) := by
  constructor
  · intro hnd
    have hnd2 : ((data.map (mkRow loc)).map
        (fun r => (r.sample_date, r.location))).Nodup := by
      rw [List.map_map]
      have he : ((fun r : DBRow => (r.sample_date, r.location)) ∘ mkRow loc)
          = (fun d : String => (d, loc)) ∘ Prod.fst := rfl
      rw [he, ← List.map_map]
      refine List.Nodup.map ?_ hnd
      intro a b hab
      exact congrArg Prod.fst hab
    have h := saveFold_count (data.map (mkRow loc)) ((initializeDb db).getD []) 0 hnd2
    rw [saveData_def, h, Nat.zero_add, length_filter_map]
    rfl
  · have key : (data.map (mkRow loc)).foldl saveStep
        ((((data.map (mkRow loc)).foldl saveStep
          ((initializeDb db).getD [], 0)).1), 0)
        = (((data.map (mkRow loc)).foldl saveStep
          ((initializeDb db).getD [], 0)).1, 0) :=
      saveFold_all_present _ _ _
        (fun r hr => saveFold_inserts (data.map (mkRow loc))
          ((initializeDb db).getD []) 0 r hr)
    rw [saveData_def loc data db, saveData_def loc data (some _)]
    show (some ((data.map (mkRow loc)).foldl saveStep _).1,
        ((data.map (mkRow loc)).foldl saveStep _).2) = _
    rw [show (initializeDb (some (((data.map (mkRow loc)).foldl saveStep
        ((initializeDb db).getD [], 0)).1))).getD []
      = ((data.map (mkRow loc)).foldl saveStep
        ((initializeDb db).getD [], 0)).1 from rfl]
    rw [key]

/-- Witness for C2: one new row counts 1 on a fresh store, and resaving it
returns 0 with the store unchanged. -/
theorem saveData_idempotent_count_witness :
    (saveData "Winnipeg" [("2024-01-01", (none, none, none))] none).2 = 1 ∧
    saveData "Winnipeg" [("2024-01-01", (none, none, none))]
        (saveData "Winnipeg" [("2024-01-01", (none, none, none))] none).1
      = ((saveData "Winnipeg" [("2024-01-01", (none, none, none))] none).1, 0) := by
  have h := saveData_idempotent_count "Winnipeg"
    [("2024-01-01", (none, none, none))] none
  refine ⟨?_, h.2⟩
  rw [h.1 (by simp)]
  rfl

lemma filter_map_comm {α β : Type} (f : α → β) (q : β → Bool) (l : List α) :
    (l.filter (fun x => q (f x))).map f = (l.map f).filter q := by
  induction l with
  | nil => rfl
  | cons a l2 ih =>
    rw [List.filter_cons, List.map_cons, List.filter_cons]
    by_cases h : q (f a) = true
    · rw [if_pos h, if_pos h, List.map_cons, ih]
    · rw [if_neg h, if_neg h]
      exact ih

lemma saveFold_find_preserved (rows : List DBRow) (tbl : List DBRow) (c : Nat)
    (p : DBRow → Bool) (r : DBRow) (h : tbl.find? p = some r) :
    ((rows.foldl saveStep (tbl, c)).1).find? p = some r := by
  obtain ⟨ext, he⟩ := saveFold_extends rows tbl c
  rw [he, List.find?_append, h]
  rfl

lemma saveFold_skip (d loc : String) (rows : List DBRow) :
    ∀ (tbl : List DBRow) (c : Nat), hasKey tbl d loc = true →
      rows.foldl saveStep (tbl, c)
        = (rows.filter
            (fun r => !(r.sample_date == d && r.location == loc))).foldl
              saveStep (tbl, c) := by
  induction rows with
  | nil => intro tbl c _; rfl
  | cons r rs ih =>
    intro tbl c hk
    by_cases hm : (r.sample_date == d && r.location == loc) = true
    · obtain ⟨hd, hl⟩ := Bool.and_eq_true_iff.mp hm
      have hkr : hasKey tbl r.sample_date r.location = true := by
        rw [beq_iff_eq.mp hd, beq_iff_eq.mp hl]
        exact hk
      rw [List.foldl_cons, saveStep_present tbl c r hkr, List.filter_cons,
        if_neg (by simp [hm])]
      exact ih tbl c hk
    · rw [List.filter_cons, if_pos (by simp [hm]), List.foldl_cons, List.foldl_cons]
      by_cases hkr : hasKey tbl r.sample_date r.location = true
      · rw [saveStep_present tbl c r hkr]
        exact ih tbl c hk
      · rw [saveStep_absent tbl c r (by simpa using hkr)]
        exact ih (tbl ++ [r]) (c + 1) (hasKey_append tbl [r] d loc hk)

/-- C3: non-destructive overwrite. When a row with key (d, location) is
already persisted, any later save for that location — whatever values its
batch maps d to — leaves the persisted row for (d, location) unchanged,
and the whole save behaves exactly as if every entry for date d had been
removed from the batch: the conflicting writes are silent no-ops that add
nothing to the inserted count. -/
theorem saveData_nondestructive (loc d : String) (data : List (String × Triple))
    (tbl : List DBRow) (r : DBRow)
    (hfind : tbl.find? (fun q => q.sample_date == d && q.location == loc) = some r) :
    ((saveData loc data (some tbl)).1.getD []).find?
        (fun q => q.sample_date == d && q.location == loc) = some r ∧
    saveData loc data (some tbl)
      = saveData loc (data.filter (fun p => p.1 != d)) (some tbl) := by
  have htbl : (initializeDb (some tbl)).getD [] = tbl := rfl
  have hkey : hasKey tbl d loc = true := by
    rw [hasKey, List.any_eq_true]
    exact ⟨r, List.mem_of_find?_eq_some hfind,
      @List.find?_some DBRow (fun q => q.sample_date == d && q.location == loc) r tbl hfind⟩
  constructor
  · rw [saveData_def]
    show ((data.map (mkRow loc)).foldl saveStep
      ((initializeDb (some tbl)).getD [], 0)).1.find? _ = some r
    rw [htbl]
    exact saveFold_find_preserved _ tbl 0 _ r hfind
  · rw [saveData_def, saveData_def, htbl]
    have hq : data.filter (fun p => p.1 != d)
        = data.filter (fun p =>
            !((mkRow loc p).sample_date == d && (mkRow loc p).location == loc)) := by
      refine List.filter_congr ?_
      intro x _
      show (x.1 != d) = !(x.1 == d && (loc == loc))
      rw [beq_self_eq_true, Bool.and_true]
      rfl
    rw [hq, filter_map_comm (mkRow loc)
      (fun q2 => !(q2.sample_date == d && q2.location == loc)) data,
      ← saveFold_skip d loc (data.map (mkRow loc)) tbl 0 hkey]

/-- Witness for C3: a stored row for 2024-01-01 with max 1 survives a save
that maps the same date to max 2; the save equals the save of the batch
with that date dropped. -/
theorem saveData_nondestructive_witness :
    ((saveData "Winnipeg" [("2024-01-01", (none, some 2, none))]
        (some [⟨"2024-01-01", "Winnipeg", none, some 1, none⟩])).1.getD []).find?
        (fun q => q.sample_date == "2024-01-01" && q.location == "Winnipeg")
      = some ⟨"2024-01-01", "Winnipeg", none, some 1, none⟩ ∧
    saveData "Winnipeg" [("2024-01-01", (none, some 2, none))]
        (some [⟨"2024-01-01", "Winnipeg", none, some 1, none⟩])
      = saveData "Winnipeg"
          ([("2024-01-01", (none, some 2, none))].filter (fun p => p.1 != "2024-01-01"))
          (some [⟨"2024-01-01", "Winnipeg", none, some 1, none⟩]) :=
  saveData_nondestructive "Winnipeg" "2024-01-01"
    [("2024-01-01", (none, some 2, none))]
    [⟨"2024-01-01", "Winnipeg", none, some 1, none⟩]
    ⟨"2024-01-01", "Winnipeg", none, some 1, none⟩ rfl

lemma uniqueKeys_insertOrIgnore (tbl : List DBRow) (r : DBRow)
    (h : uniqueKeys tbl) : uniqueKeys (insertOrIgnore tbl r).1 := by
  unfold insertOrIgnore
  by_cases hk : hasKey tbl r.sample_date r.location = true
  · rw [if_pos hk]
    exact h
  · rw [if_neg hk]
    show uniqueKeys (tbl ++ [r])
    rw [uniqueKeys, List.pairwise_append]
    refine ⟨h, List.pairwise_singleton _ _, ?_⟩
    intro a ha b hb
    rw [List.mem_singleton] at hb
    subst hb
    intro ⟨hd, hl⟩
    refine hk ?_
    rw [hasKey, List.any_eq_true]
    exact ⟨a, ha, by rw [hd, hl]; simp⟩

lemma uniqueKeys_saveFold (rows : List DBRow) :
    ∀ (tbl : List DBRow) (c : Nat), uniqueKeys tbl →
      uniqueKeys ((rows.foldl saveStep (tbl, c)).1) := by
  induction rows with
  | nil => intro tbl c h; exact h
  | cons r rs ih =>
    intro tbl c h
    rw [List.foldl_cons]
    by_cases hk : hasKey tbl r.sample_date r.location = true
    · rw [saveStep_present tbl c r hk]
      exact ih tbl c h
    · rw [saveStep_absent tbl c r (by simpa using hk)]
      refine ih (tbl ++ [r]) (c + 1) ?_
      have hins := uniqueKeys_insertOrIgnore tbl r h
      rw [insertOrIgnore, if_neg hk] at hins
      exact hins

lemma uniqueKeys_applyOp (db : DB) (op : StoreOp)
    (h : uniqueKeys (db.getD [])) : uniqueKeys ((applyOp db op).getD []) := by
  cases op with
  | save loc data =>
    show uniqueKeys ((saveData loc data db).1.getD [])
    rw [saveData_def]
    exact uniqueKeys_saveFold _ _ 0 h
  | fetchR y1 y2 =>
    exact h

lemma uniqueKeys_runOps (ops : List StoreOp) :
    ∀ (db : DB), uniqueKeys (db.getD []) →
      uniqueKeys ((runOps db ops).getD []) := by
  induction ops with
  | nil => intro db h; exact h
  | cons op rest ih =>
    intro db h
    exact ih (applyOp db op) (uniqueKeys_applyOp db op h)

/-- C1: storage uniqueness invariant. From an empty or freshly initialized
database, after any sequence of save_data and fetch_data calls, no two
persisted rows of the weather table share both the date and the location. -/
theorem store_uniqueness_invariant (ops : List StoreOp) (db0 : DB)
    (tbl : List DBRow)
    (h0 : db0 = none ∨ db0 = some [])
    (h : runOps db0 ops = some tbl) :
    uniqueKeys tbl := by
  have hbase : uniqueKeys (db0.getD []) := by
    rcases h0 with h1 | h1 <;> rw [h1] <;> exact List.Pairwise.nil
  have hend := uniqueKeys_runOps ops db0 hbase
  rw [h] at hend
  exact hend

/-- Witness for C1: a short run of one save and one fetch produces a table
whose keys are pairwise distinct. -/
theorem store_uniqueness_invariant_witness :
    uniqueKeys [⟨"2024-01-01", "Winnipeg", none, none, none⟩,
      ⟨"2024-01-02", "Winnipeg", none, none, none⟩] :=
  store_uniqueness_invariant
    [StoreOp.save "Winnipeg" [("2024-01-01", (none, none, none)),
        ("2024-01-02", (none, none, none))],
      StoreOp.fetchR 2024 2024,
      StoreOp.save "Winnipeg" [("2024-01-01", (none, none, none))]]
    none _ (Or.inl rfl) rfl

/-- C8: permissive numeric parsing and missing-value tolerance. A missing
cell, an empty or whitespace-only cell, the NA marker in any case, and any
cell that fails numeric parsing all give an absent value (as_num is total:
nothing raises and the page is never aborted); an accepted single-row page
yields exactly one observation whose three fields are the as_num of its
three cells — in particular a row with an empty mean cell and a parseable
max cell keeps meanTemp absent and maxTemp set, and a row whose three
numeric cells are all unparseable is still included. -/
theorem parser_missing_value_tolerance (year month : Int)
    (dcell maxc minc meanc : String) :
    asNum none = none ∧
    (∀ s : String, pyStrip s = "" → asNum (some s) = none) ∧
    (∀ s : String, pyUpper (pyStrip s) = "NA" → asNum (some s) = none) ∧
    (∀ s : String, pyFloat (pyStrip s) = none → asNum (some s) = none) ∧
    (∀ k : String,
      rowDateKey ["Date/Time", "Max Temp (°C)", "Min Temp (°C)", "Mean Temp (°C)"]
          year month
          [("Date/Time", dcell), ("Max Temp (°C)", maxc),
            ("Min Temp (°C)", minc), ("Mean Temp (°C)", meanc)] = some k →
      parseMonthRows
          [[("Date/Time", dcell), ("Max Temp (°C)", maxc),
            ("Min Temp (°C)", minc), ("Mean Temp (°C)", meanc)]] year month
        = [(k, ⟨asNum (some minc), asNum (some maxc), asNum (some meanc)⟩)]) ∧
    (∀ (k : String) (q : Rat),
      rowDateKey ["Date/Time", "Max Temp (°C)", "Min Temp (°C)", "Mean Temp (°C)"]
          year month
          [("Date/Time", dcell), ("Max Temp (°C)", maxc),
            ("Min Temp (°C)", minc), ("Mean Temp (°C)", meanc)] = some k →
      pyStrip meanc = "" → asNum (some maxc) = some q →
      parseMonthRows
          [[("Date/Time", dcell), ("Max Temp (°C)", maxc),
            ("Min Temp (°C)", minc), ("Mean Temp (°C)", meanc)]] year month
        = [(k, ⟨asNum (some minc), some q, none⟩)]) := by
  have habs : ∀ s : String, pyStrip s = "" → asNum (some s) = none := by
    intro s h
    show (if pyStrip s = "" then none
      else if pyUpper (pyStrip s) = "NA" then none
      else pyFloat (pyStrip s)) = none
    rw [if_pos h]
  have hsingle : ∀ k : String,
      rowDateKey ["Date/Time", "Max Temp (°C)", "Min Temp (°C)", "Mean Temp (°C)"]
          year month
          [("Date/Time", dcell), ("Max Temp (°C)", maxc),
            ("Min Temp (°C)", minc), ("Mean Temp (°C)", meanc)] = some k →
      parseMonthRows
          [[("Date/Time", dcell), ("Max Temp (°C)", maxc),
            ("Min Temp (°C)", minc), ("Mean Temp (°C)", meanc)]] year month
        = [(k, ⟨asNum (some minc), asNum (some maxc), asNum (some meanc)⟩)] := by
    intro k hk
    have hred : parseMonthRows
        [[("Date/Time", dcell), ("Max Temp (°C)", maxc),
          ("Min Temp (°C)", minc), ("Mean Temp (°C)", meanc)]] year month
      = match rowDateKey
          ["Date/Time", "Max Temp (°C)", "Min Temp (°C)", "Mean Temp (°C)"]
          year month
          [("Date/Time", dcell), ("Max Temp (°C)", maxc),
            ("Min Temp (°C)", minc), ("Mean Temp (°C)", meanc)] with
        | none => []
        | some dkey =>
          [(dkey, ⟨asNum (some minc), asNum (some maxc), asNum (some meanc)⟩)] := rfl
    rw [hred, hk]
  refine ⟨rfl, habs, ?_, ?_, hsingle, ?_⟩
  · intro s h
    show (if pyStrip s = "" then none
      else if pyUpper (pyStrip s) = "NA" then none
      else pyFloat (pyStrip s)) = none
    by_cases he : pyStrip s = ""
    · rw [if_pos he]
    · rw [if_neg he, if_pos h]
  · intro s h
    show (if pyStrip s = "" then none
      else if pyUpper (pyStrip s) = "NA" then none
      else pyFloat (pyStrip s)) = none
    by_cases he : pyStrip s = ""
    · rw [if_pos he]
    · rw [if_neg he]
      by_cases hna : pyUpper (pyStrip s) = "NA"
      · rw [if_pos hna]
      · rw [if_neg hna]
        exact h
  · intro k q hk hmean hmax
    rw [hsingle k hk, habs meanc hmean, hmax]

/-- Witness for C8: on the page whose accepted row has date 2024-05-01,
max cell "12.5", min cell "M" and empty mean cell, the parse keeps the row
with maxTemp set, minTemp and meanTemp absent. -/
theorem parser_missing_value_tolerance_witness :
    parseMonthRows
        [[("Date/Time", "2024-05-01"), ("Max Temp (°C)", "12.5"),
          ("Min Temp (°C)", "M"), ("Mean Temp (°C)", "")]] 2024 5
      = [("2024-05-01", ⟨none, some ((pyFloat "12.5").getD 0), none⟩)] := by
  have h := (parser_missing_value_tolerance 2024 5 "2024-05-01" "12.5" "M" "").2.2.2.2.2
    "2024-05-01" ((pyFloat "12.5").getD 0) rfl rfl rfl
  exact h

/-- C7 counterexample: the parser does not require the date cell to parse
as a valid calendar date. The row with date cell "2024-05-XY" is accepted
for the request (2024, 5) and produces an observation keyed "2024-05-XY",
although "2024-05-XY" is not a calendar date: only the length and the
7-character "YYYY-MM" prefix are checked. -/
theorem parser_accepts_invalid_date :
    parseMonthRows [[("Date/Time", "2024-05-XY")]] 2024 5
      = [("2024-05-XY", ⟨none, none, none⟩)] ∧
    validDate10 "2024-05-XY" = false :=
  ⟨rfl, rfl⟩

lemma dictInsert_key_mem (os : ObservationSet) (k : String) (v : Day) (k2 : String) :
    (∃ p ∈ dictInsert os k v, p.1 = k2) ↔ (∃ p ∈ os, p.1 = k2) ∨ k = k2 := by
  unfold dictInsert
  by_cases hp : os.any (fun p => p.1 == k) = true
  · rw [if_pos hp]
    constructor
    · rintro ⟨p, hpm, hpk⟩
      obtain ⟨q, hqm, hqe⟩ := List.mem_map.mp hpm
      by_cases hqk : (q.1 == k) = true
      · rw [if_pos hqk] at hqe
        right
        rw [← hqe] at hpk
        exact hpk
      · rw [if_neg hqk] at hqe
        left
        exact ⟨q, hqm, by rw [hqe]; exact hpk⟩
    · rintro (⟨q, hqm, hqk⟩ | hkk)
      · by_cases hqe : (q.1 == k) = true
        · refine ⟨(k, v), List.mem_map.mpr ⟨q, hqm, by rw [if_pos hqe]⟩, ?_⟩
          show k = k2
          rw [← beq_iff_eq.mp hqe]
          exact hqk
        · exact ⟨q, List.mem_map.mpr ⟨q, hqm, by rw [if_neg hqe]⟩, hqk⟩
      · obtain ⟨q, hqm, hqk⟩ := List.any_eq_true.mp hp
        exact ⟨(k, v), List.mem_map.mpr ⟨q, hqm, by rw [if_pos hqk]⟩, hkk⟩
  · rw [if_neg hp]
    constructor
    · rintro ⟨p, hpm, hpk⟩
      rcases List.mem_append.mp hpm with hin | hone
      · exact Or.inl ⟨p, hin, hpk⟩
      · rw [List.mem_singleton] at hone
        right
        rw [hone] at hpk
        exact hpk
    · rintro (⟨q, hqm, hqk⟩ | hkk)
      · exact ⟨q, List.mem_append.mpr (Or.inl hqm), hqk⟩
      · exact ⟨(k, v), List.mem_append.mpr (Or.inr (List.mem_singleton.mpr rfl)), hkk⟩

lemma parse_fold_key_mem (keys : List String) (year month : Int) (k : String) :
    ∀ (rows2 : List Row) (os : ObservationSet),
      (∃ p ∈ rows2.foldl (fun results row =>
          match rowDateKey keys year month row with
          | none => results
          | some dkey => dictInsert results dkey (rowDay keys row)) os, p.1 = k)
      ↔ (∃ p ∈ os, p.1 = k) ∨
          (∃ row ∈ rows2, rowDateKey keys year month row = some k) := by
  intro rows2
  induction rows2 with
  | nil => intro os; simp
  | cons row rest ih =>
    intro os
    rw [List.foldl_cons]
    cases h : rowDateKey keys year month row with
    | none =>
      dsimp only
      rw [ih os]
      constructor
      · rintro (h1 | h2)
        · exact Or.inl h1
        · exact Or.inr (by
            obtain ⟨r2, hr2, he⟩ := h2
            exact ⟨r2, List.mem_cons_of_mem _ hr2, he⟩)
      · rintro (h1 | ⟨r2, hr2, he⟩)
        · exact Or.inl h1
        · rcases List.mem_cons.mp hr2 with rfl | hr3
          · rw [h] at he
            cases he
          · exact Or.inr ⟨r2, hr3, he⟩
    | some dkey =>
      dsimp only
      rw [ih (dictInsert os dkey (rowDay keys row)), dictInsert_key_mem]
      constructor
      · rintro ((h1 | h2) | h3)
        · exact Or.inl h1
        · exact Or.inr ⟨row, List.mem_cons_self _ _, by rw [h, h2]⟩
        · obtain ⟨r2, hr2, he⟩ := h3
          exact Or.inr ⟨r2, List.mem_cons_of_mem _ hr2, he⟩
      · rintro (h1 | ⟨r2, hr2, he⟩)
        · exact Or.inl (Or.inl h1)
        · rcases List.mem_cons.mp hr2 with rfl | hr3
          · rw [h] at he
            exact Or.inl (Or.inr (Option.some.inj he))
          · exact Or.inr ⟨r2, hr3, he⟩

/-- C7 amended: the parse of a page produces an observation under key k
exactly when some row of the page is accepted with key k, where a row is
accepted exactly when its stripped date cell has at least 10 characters
and its first 7 characters equal the zero-padded "YYYY-MM" of the request;
the key is the first 10 characters of the cell, with no validation that it
is a calendar date. Every other row yields no observation. -/
theorem parseMonthRows_acceptance (r0 : Row) (rest : List Row)
    (year month : Int) (k : String) :
    (∃ p ∈ parseMonthRows (r0 :: rest) year month, p.1 = k)
      ↔ ∃ row ∈ r0 :: rest, rowDateKey (r0.map Prod.fst) year month row = some k := by
  have h := parse_fold_key_mem (r0.map Prod.fst) year month k (r0 :: rest) []
  have hdefeq : parseMonthRows (r0 :: rest) year month
      = (r0 :: rest).foldl (fun results row =>
          match rowDateKey (r0.map Prod.fst) year month row with
          | none => results
          | some dkey => dictInsert results dkey (rowDay (r0.map Prod.fst) row)) [] := rfl
  rw [hdefeq, h]
  simp

/- ------------------------------------------------------------------
   Decimal digit strings versus the memcmp text order (for C9)
   ------------------------------------------------------------------ -/

lemma isDigit_toNat (c : Char) (h : c.isDigit = true) :
    48 ≤ c.toNat ∧ c.toNat ≤ 57 := by
  simp only [Char.isDigit, Bool.and_eq_true, decide_eq_true_eq] at h
  obtain ⟨h1, h2⟩ := h
  rw [ge_iff_le, UInt32.le_def, BitVec.le_def] at h1
  rw [UInt32.le_def, BitVec.le_def] at h2
  exact ⟨h1, h2⟩

lemma natOfDigits_foldl (l : List Char) :
    ∀ a : Nat, l.foldl (fun x c => 10 * x + dval c) a
      = a * 10 ^ l.length + natOfDigits l := by
  induction l with
  | nil => intro a; simp [natOfDigits]
  | cons c cs ih =>
    intro a
    rw [List.foldl_cons, ih (10 * a + dval c)]
    have hv : natOfDigits (c :: cs) = (10 * 0 + dval c) * 10 ^ cs.length + natOfDigits cs := by
      show (c :: cs).foldl (fun x c2 => 10 * x + dval c2) 0 = _
      rw [List.foldl_cons, ih (10 * 0 + dval c)]
    rw [hv, List.length_cons]
    ring

lemma natOfDigits_cons (c : Char) (cs : List Char) :
    natOfDigits (c :: cs) = dval c * 10 ^ cs.length + natOfDigits cs := by
  show (c :: cs).foldl (fun x c2 => 10 * x + dval c2) 0 = _
  rw [List.foldl_cons, natOfDigits_foldl]
  norm_num

lemma natOfDigits_lt (l : List Char) (h : ∀ c ∈ l, c.isDigit = true) :
    natOfDigits l < 10 ^ l.length := by
  induction l with
  | nil => simp [natOfDigits]
  | cons c cs ih =>
    rw [natOfDigits_cons, List.length_cons]
    have hc := isDigit_toNat c (h c (List.mem_cons_self _ _))
    have hd : dval c ≤ 9 := by unfold dval; omega
    have hcs := ih (fun x hx => h x (List.mem_cons_of_mem _ hx))
    calc dval c * 10 ^ cs.length + natOfDigits cs
        < dval c * 10 ^ cs.length + 10 ^ cs.length := by omega
      _ = (dval c + 1) * 10 ^ cs.length := by ring
      _ ≤ 10 * 10 ^ cs.length := Nat.mul_le_mul_right _ (by omega)
      _ = 10 ^ (cs.length + 1) := by ring

lemma natOfDigits_head_lt (a b : Char) (as bs : List Char)
    (hlen : as.length = bs.length)
    (ha : a.isDigit = true) (hb : b.isDigit = true)
    (has : ∀ c ∈ as, c.isDigit = true)
    (hlt : a.toNat < b.toNat) :
    natOfDigits (a :: as) < natOfDigits (b :: bs) := by
  rw [natOfDigits_cons, natOfDigits_cons, hlen]
  have h1 := isDigit_toNat a ha
  have h2 := isDigit_toNat b hb
  have hd : dval a + 1 ≤ dval b := by unfold dval; omega
  have hv1 : natOfDigits as < 10 ^ as.length := natOfDigits_lt as has
  rw [hlen] at hv1
  calc dval a * 10 ^ bs.length + natOfDigits as
      < dval a * 10 ^ bs.length + 10 ^ bs.length := by omega
    _ = (dval a + 1) * 10 ^ bs.length := by ring
    _ ≤ dval b * 10 ^ bs.length := Nat.mul_le_mul_right _ hd
    _ ≤ dval b * 10 ^ bs.length + natOfDigits bs := Nat.le_add_right _ _

lemma memLe_digits : ∀ (l1 l2 : List Char), l1.length = l2.length →
    (∀ c ∈ l1, c.isDigit = true) → (∀ c ∈ l2, c.isDigit = true) →
    (memLe l1 l2 = true ↔ natOfDigits l1 ≤ natOfDigits l2) := by
  intro l1
  induction l1 with
  | nil =>
    intro l2 hlen _ _
    have h0 : l2 = [] := List.length_eq_zero.mp hlen.symm
    subst h0
    simp [memLe]
  | cons a as ih =>
    intro l2 hlen h1 h2
    cases l2 with
    | nil => simp at hlen
    | cons b bs =>
      have hlen2 : as.length = bs.length := by simpa using hlen
      have hdA := h1 a (List.mem_cons_self _ _)
      have hdB := h2 b (List.mem_cons_self _ _)
      have hAs := fun x hx => h1 x (List.mem_cons_of_mem _ hx)
      have hBs := fun x hx => h2 x (List.mem_cons_of_mem _ hx)
      show (if a.toNat < b.toNat then true
        else if b.toNat < a.toNat then false else memLe as bs) = true ↔ _
      rcases Nat.lt_trichotomy a.toNat b.toNat with hlt | heq | hgt
      · rw [if_pos hlt]
        constructor
        · intro _
          exact le_of_lt (natOfDigits_head_lt a b as bs hlen2 hdA hdB hAs hlt)
        · intro _
          rfl
      · rw [if_neg (by omega), if_neg (by omega), ih bs hlen2 hAs hBs,
          natOfDigits_cons, natOfDigits_cons, hlen2]
        have hde : dval a = dval b := by unfold dval; omega
        rw [hde]
        constructor <;> intro h <;> omega
      · rw [if_neg (by omega), if_pos hgt]
        have hstrict := natOfDigits_head_lt b a bs as hlen2.symm hdB hdA hBs hgt
        constructor
        · intro hfalse
          exact absurd hfalse (by simp)
        · intro hle
          exact absurd hle (by omega)

lemma memLe_total (l1 : List Char) : ∀ l2, memLe l1 l2 = true ∨ memLe l2 l1 = true := by
  induction l1 with
  | nil => intro l2; left; rfl
  | cons a as ih =>
    intro l2
    cases l2 with
    | nil => right; rfl
    | cons b bs =>
      show (if a.toNat < b.toNat then true
          else if b.toNat < a.toNat then false else memLe as bs) = true ∨
        (if b.toNat < a.toNat then true
          else if a.toNat < b.toNat then false else memLe bs as) = true
      rcases Nat.lt_trichotomy a.toNat b.toNat with hlt | heq | hgt
      · left
        rw [if_pos hlt]
      · rw [if_neg (by omega), if_neg (by omega), if_neg (by omega), if_neg (by omega)]
        exact ih bs
      · right
        rw [if_pos hgt]

lemma memLe_trans : ∀ (l1 l2 l3 : List Char),
    memLe l1 l2 = true → memLe l2 l3 = true → memLe l1 l3 = true := by
  intro l1
  induction l1 with
  | nil => intro l2 l3 _ _; rfl
  | cons a as ih =>
    intro l2 l3 h12 h23
    cases l2 with
    | nil => exact absurd h12 (by simp [memLe])
    | cons b bs =>
      cases l3 with
      | nil => exact absurd h23 (by simp [memLe])
      | cons c cs =>
        show (if a.toNat < c.toNat then true
          else if c.toNat < a.toNat then false else memLe as cs) = true
        have h12a : (if a.toNat < b.toNat then true
            else if b.toNat < a.toNat then false else memLe as bs) = true := h12
        have h23a : (if b.toNat < c.toNat then true
            else if c.toNat < b.toNat then false else memLe bs cs) = true := h23
        by_cases hab : a.toNat < b.toNat <;> by_cases hbc : b.toNat < c.toNat
        · rw [if_pos (by omega)]
        · rw [if_neg hbc] at h23a
          by_cases hcb : c.toNat < b.toNat
          · rw [if_pos hcb] at h23a
            cases h23a
          · rw [if_pos (by omega)]
        · rw [if_neg hab] at h12a
          by_cases hba : b.toNat < a.toNat
          · rw [if_pos hba] at h12a
            cases h12a
          · rw [if_pos (by omega)]
        · rw [if_neg hab] at h12a
          rw [if_neg hbc] at h23a
          by_cases hba : b.toNat < a.toNat
          · rw [if_pos hba] at h12a
            cases h12a
          · by_cases hcb : c.toNat < b.toNat
            · rw [if_pos hcb] at h23a
              cases h23a
            · rw [if_neg hba] at h12a
              rw [if_neg hcb] at h23a
              rw [if_neg (by omega), if_neg (by omega)]
              exact ih bs cs h12a h23a

lemma natToDigitsAux_acc : ∀ (f n : Nat) (acc : List Char), n < f →
    natToDigitsAux f n acc = natToDigitsAux f n [] ++ acc := by
  intro f
  induction f with
  | zero => intro n acc h; exact absurd h (Nat.not_lt_zero n)
  | succ g ih =>
    intro n acc h
    show (if n < 10 then digitChar n :: acc
        else natToDigitsAux g (n / 10) (digitChar (n % 10) :: acc)) = _
    by_cases h10 : n < 10
    · rw [if_pos h10]
      show _ = (if n < 10 then digitChar n :: []
        else natToDigitsAux g (n / 10) (digitChar (n % 10) :: [])) ++ acc
      rw [if_pos h10]
      rfl
    · rw [if_neg h10]
      have hlt : n / 10 < g := by
        have hsl : n / 10 < n := Nat.div_lt_self (by omega) (by omega)
        omega
      rw [ih (n / 10) (digitChar (n % 10) :: acc) hlt]
      show _ = (if n < 10 then digitChar n :: []
        else natToDigitsAux g (n / 10) (digitChar (n % 10) :: [])) ++ acc
      rw [if_neg h10, ih (n / 10) [digitChar (n % 10)] hlt, List.append_assoc]
      rfl

lemma natToDigitsAux_fuel : ∀ (f1 f2 n : Nat), n < f1 → n < f2 → ∀ acc,
    natToDigitsAux f1 n acc = natToDigitsAux f2 n acc := by
  intro f1
  induction f1 with
  | zero => intro f2 n h _ _; exact absurd h (Nat.not_lt_zero n)
  | succ g1 ih =>
    intro f2 n h1 h2 acc
    cases f2 with
    | zero => exact absurd h2 (Nat.not_lt_zero n)
    | succ g2 =>
      show (if n < 10 then digitChar n :: acc
          else natToDigitsAux g1 (n / 10) (digitChar (n % 10) :: acc))
        = (if n < 10 then digitChar n :: acc
          else natToDigitsAux g2 (n / 10) (digitChar (n % 10) :: acc))
      by_cases h10 : n < 10
      · rw [if_pos h10, if_pos h10]
      · rw [if_neg h10, if_neg h10]
        have hd : n / 10 < n := Nat.div_lt_self (by omega) (by omega)
        exact ih g2 (n / 10) (by omega) (by omega) _

lemma natToDigits_eq (n : Nat) :
    natToDigits n = if n < 10 then [digitChar n]
      else natToDigits (n / 10) ++ [digitChar (n % 10)] := by
  show natToDigitsAux (n + 1) n [] = _
  by_cases h : n < 10
  · rw [if_pos h]
    show (if n < 10 then digitChar n :: []
      else natToDigitsAux n (n / 10) (digitChar (n % 10) :: [])) = _
    rw [if_pos h]
  · rw [if_neg h]
    show (if n < 10 then digitChar n :: []
      else natToDigitsAux n (n / 10) (digitChar (n % 10) :: [])) = _
    rw [if_neg h]
    have hlt : n / 10 < n := Nat.div_lt_self (by omega) (by omega)
    rw [natToDigitsAux_acc n (n / 10) [digitChar (n % 10)] hlt,
      natToDigitsAux_fuel n (n / 10 + 1) (n / 10) hlt (Nat.lt_succ_self _) []]
    rfl

lemma digitChar_isDigit (d : Nat) (h : d < 10) : (digitChar d).isDigit = true := by
  interval_cases d <;> rfl

lemma dval_digitChar (d : Nat) (h : d < 10) : dval (digitChar d) = d := by
  interval_cases d <;> rfl

lemma natToDigits_digits (n : Nat) : ∀ c ∈ natToDigits n, c.isDigit = true := by
  induction n using Nat.strong_induction_on with
  | _ n ih =>
    rw [natToDigits_eq]
    by_cases h : n < 10
    · rw [if_pos h]
      intro c hc
      rw [List.mem_singleton] at hc
      subst hc
      exact digitChar_isDigit n h
    · rw [if_neg h]
      intro c hc
      rcases List.mem_append.mp hc with h1 | h2
      · exact ih (n / 10) (Nat.div_lt_self (by omega) (by omega)) c h1
      · rw [List.mem_singleton] at h2
        subst h2
        exact digitChar_isDigit (n % 10) (Nat.mod_lt n (by omega))

lemma natOfDigits_append_one (l : List Char) (c : Char) :
    natOfDigits (l ++ [c]) = 10 * natOfDigits l + dval c := by
  show (l ++ [c]).foldl (fun x c2 => 10 * x + dval c2) 0 = _
  rw [List.foldl_append]
  rfl

lemma natOfDigits_natToDigits (n : Nat) : natOfDigits (natToDigits n) = n := by
  induction n using Nat.strong_induction_on with
  | _ n ih =>
    rw [natToDigits_eq]
    by_cases h : n < 10
    · rw [if_pos h]
      show natOfDigits ([] ++ [digitChar n]) = n
      rw [natOfDigits_append_one, dval_digitChar n h]
      show 10 * natOfDigits [] + n = n
      simp [natOfDigits]
    · rw [if_neg h, natOfDigits_append_one,
        ih (n / 10) (Nat.div_lt_self (by omega) (by omega)),
        dval_digitChar (n % 10) (Nat.mod_lt n (by omega))]
      omega

lemma natToDigits_len1 (n : Nat) (h : n < 10) : (natToDigits n).length = 1 := by
  rw [natToDigits_eq, if_pos h]
  rfl

lemma natToDigits_len2 (n : Nat) (h1 : 10 ≤ n) (h2 : n < 100) :
    (natToDigits n).length = 2 := by
  rw [natToDigits_eq, if_neg (by omega), List.length_append,
    natToDigits_len1 (n / 10) (by omega)]
  rfl

lemma natToDigits_len3 (n : Nat) (h1 : 100 ≤ n) (h2 : n < 1000) :
    (natToDigits n).length = 3 := by
  rw [natToDigits_eq, if_neg (by omega), List.length_append,
    natToDigits_len2 (n / 10) (by omega) (by omega)]
  rfl

lemma natToDigits_len4 (n : Nat) (h1 : 1000 ≤ n) (h2 : n < 10000) :
    (natToDigits n).length = 4 := by
  rw [natToDigits_eq, if_neg (by omega), List.length_append,
    natToDigits_len3 (n / 10) (by omega) (by omega)]
  rfl

lemma memLe_natStr (a b : Nat) (ha1 : 1000 ≤ a) (ha2 : a ≤ 9999)
    (hb1 : 1000 ≤ b) (hb2 : b ≤ 9999) :
    (memLe (natStr a).data (natStr b).data = true) ↔ a ≤ b := by
  show memLe (natToDigits a) (natToDigits b) = true ↔ a ≤ b
  rw [memLe_digits (natToDigits a) (natToDigits b)
    (by rw [natToDigits_len4 a ha1 (by omega), natToDigits_len4 b hb1 (by omega)])
    (natToDigits_digits a) (natToDigits_digits b),
    natOfDigits_natToDigits, natOfDigits_natToDigits]

lemma inSpan_eq_inSpanNum (y1 y2 : Int) (r : DBRow)
    (hy1a : 1000 ≤ y1) (hy1b : y1 ≤ 9999) (hy2a : 1000 ≤ y2) (hy2b : y2 ≤ 9999)
    (hwf : yearWellFormed r) :
    inSpan y1 y2 r = inSpanNum y1 y2 r := by
  obtain ⟨y, hya, hyb, hdate⟩ := hwf
  have hstr1 : intStr y1 = natStr y1.toNat := by
    unfold intStr
    rw [if_neg (by omega)]
  have hstr2 : intStr y2 = natStr y2.toNat := by
    unfold intStr
    rw [if_neg (by omega)]
  have hyear : rowYear r = y := by
    unfold rowYear
    rw [hdate]
    exact natOfDigits_natToDigits y
  unfold inSpan inSpanNum
  rw [hdate, hstr1, hstr2, hyear]
  have h1 : memLe (natStr y1.toNat).data (natStr y).data = decide (y1 ≤ (y : Int)) := by
    by_cases hc : y1 ≤ (y : Int)
    · rw [decide_eq_true hc]
      exact (memLe_natStr y1.toNat y (by omega) (by omega) hya hyb).mpr (by omega)
    · rw [decide_eq_false hc]
      rw [← Bool.not_eq_true]
      intro habs
      exact hc (by
        have := (memLe_natStr y1.toNat y (by omega) (by omega) hya hyb).mp habs
        omega)
  have h2 : memLe (natStr y).data (natStr y2.toNat).data = decide ((y : Int) ≤ y2) := by
    by_cases hc : (y : Int) ≤ y2
    · rw [decide_eq_true hc]
      exact (memLe_natStr y y2.toNat hya hyb (by omega) (by omega)).mpr (by omega)
    · rw [decide_eq_false hc]
      rw [← Bool.not_eq_true]
      intro habs
      exact hc (by
        have := (memLe_natStr y y2.toNat hya hyb (by omega) (by omega)).mp habs
        omega)
  rw [h1, h2]

instance : IsTotal SelRow
    (fun a b => memLe a.sample_date.data b.sample_date.data = true) :=
  ⟨fun a b => memLe_total a.sample_date.data b.sample_date.data⟩

instance : IsTrans SelRow
    (fun a b => memLe a.sample_date.data b.sample_date.data = true) :=
  ⟨fun _ _ _ h1 h2 => memLe_trans _ _ _ h1 h2⟩

/-- C9 counterexample: with yearLo = 999 and yearHi = 2024 the claim as
stated demands the stored row of year 2024 (a year inside [999, 2024]);
but the code compares the year key with str(999) as text, "2024" is below
"999" in that order, and fetch_data returns no rows. -/
theorem fetchData_year_span_counterexample :
    ((999 : Int) ≤ 2024) ∧
    inSpanNum 999 2024 ⟨"2024-01-01", "Winnipeg", none, none, none⟩ = true ∧
    (fetchData 999 2024
      (some [⟨"2024-01-01", "Winnipeg", none, none, none⟩])).2 = [] :=
  ⟨by norm_num, rfl, rfl⟩

/-- C9 amended: for four-digit year bounds yearLo ≤ yearHi and a store
whose dates begin with a four-digit year, fetch_data leaves the store
unchanged and returns exactly the rows whose numeric year lies in
[yearLo, yearHi] (as a permutation of their projections), sorted ascending
by date in the memcmp text order; and called on a database whose weather
table does not exist it initializes the schema and returns the empty
result instead of failing. -/
theorem fetchData_contract (y1 y2 : Int) (tbl : List DBRow)
    (hy1 : 1000 ≤ y1) (h12 : y1 ≤ y2) (hy2 : y2 ≤ 9999)
    (hwf : ∀ r ∈ tbl, yearWellFormed r) :
    (fetchData y1 y2 (some tbl)).1 = some tbl ∧
    ((fetchData y1 y2 (some tbl)).2).Perm
      ((tbl.filter (inSpanNum y1 y2)).map selOf) ∧
    List.Sorted (fun a b : SelRow => memLe a.sample_date.data b.sample_date.data = true)
      (fetchData y1 y2 (some tbl)).2 ∧
    fetchData y1 y2 none = (some [], []) := by
  have hfilter : tbl.filter (inSpan y1 y2) = tbl.filter (inSpanNum y1 y2) :=
    List.filter_congr (fun r hr =>
      inSpan_eq_inSpanNum y1 y2 r hy1 (by omega) (by omega) hy2 (hwf r hr))
  refine ⟨rfl, ?_, ?_, rfl⟩
  · show (List.insertionSort _ ((tbl.filter (inSpan y1 y2)).map selOf)).Perm _
    rw [hfilter]
    exact List.perm_insertionSort _ _
  · exact List.sorted_insertionSort _ _

/-- Witness for C9 amended, on a two-row store spanning 1999 and 2024. -/
theorem fetchData_contract_witness :
    (fetchData 1999 2024 (some [⟨"2024-01-01", "Winnipeg", none, none, none⟩,
        ⟨"1999-01-01", "Winnipeg", none, none, none⟩])).1
      = some [⟨"2024-01-01", "Winnipeg", none, none, none⟩,
        ⟨"1999-01-01", "Winnipeg", none, none, none⟩] ∧
    ((fetchData 1999 2024 (some [⟨"2024-01-01", "Winnipeg", none, none, none⟩,
        ⟨"1999-01-01", "Winnipeg", none, none, none⟩])).2).Perm
      (([⟨"2024-01-01", "Winnipeg", none, none, none⟩,
        (⟨"1999-01-01", "Winnipeg", none, none, none⟩ : DBRow)].filter
          (inSpanNum 1999 2024)).map selOf) ∧
    List.Sorted (fun a b : SelRow => memLe a.sample_date.data b.sample_date.data = true)
      (fetchData 1999 2024 (some [⟨"2024-01-01", "Winnipeg", none, none, none⟩,
        ⟨"1999-01-01", "Winnipeg", none, none, none⟩])).2 ∧
    fetchData 1999 2024 none = (some [], []) := by
  refine fetchData_contract 1999 2024 _ (by norm_num) (by norm_num) (by norm_num) ?_
  intro r hr
  rcases List.mem_cons.mp hr with rfl | hr2
  · exact ⟨2024, by omega, by omega, rfl⟩
  · rcases List.mem_cons.mp hr2 with rfl | hr3
    · exact ⟨1999, by omega, by omega, rfl⟩
    · cases hr3
